import Mathlib

/-!
Verification of the weight-rs memory-pressure generator (src/memory.rs).

The development shallowly embeds the two pieces of logic in the source:

* parse_memory_string : parsing a human-readable size string (regex
  "^(\d+)([KMGTP]?B)$", usize arithmetic with checked multiplication,
  an advisory warning above 100 GiB) into an exact byte count;
* allocate_memory / keep_modifying_data : building the pressure buffer
  (byte i initialized to i mod 256) and the chunked increment/decrement
  passes the background thread applies to it.

Machine integers: usize is 64-bit here, modelled as Nat with explicit
comparisons against USIZE_MAX = 2^64 - 1; u8 bytes are modelled as Nat
with values kept below 256, and the wrapping u8 operations as arithmetic
mod 256.  The regex crate runs in Unicode mode by default, so the class
\d denotes the Unicode general category Nd; it is modelled by the Nd
code point ranges of Unicode 15.0 (isNdDigit).  str::parse::<usize>
accepts only the ASCII digits, so a captured digit run containing a
non-ASCII Nd digit passes the regex and then fails integer parsing with
the invalid-digit error; parseUsize models that per-character loop.
Errors: the Rust function returns Result<usize, String>; the strings are
produced at four distinct program points, modelled by the ParseError
inductive together with ParseError.render giving the exact formatted
text of each.
-/

namespace WeightRs

/-- CHUNK_SIZE constant from the source: process 4KB at a time. -/
def CHUNK_SIZE : Nat := 4096

/-- Largest value of the 64-bit usize of the target platform. -/
def USIZE_MAX : Nat := 2 ^ 64 - 1

/-- Structured form of the error strings parse_memory_string can build.
invalidFormat carries the whole offending input text, numberParse the
display of the integer-parse failure, invalidUnit the captured unit. -/
inductive ParseError where
  | invalidFormat (text : String)
  | numberParse (detail : String)
  | sizeOverflow
  | invalidUnit (unit : String)
deriving DecidableEq

/-- Exact text of each error, following the format! calls in the source. -/
def ParseError.render : ParseError → String
  | .invalidFormat t =>
      "Invalid memory string format: '" ++ t ++
        "'. Expected format: <number><unit> (e.g., 1B, 100KB, 2GB)"
  | .numberParse d => "Failed to parse number: " ++ d
  | .sizeOverflow => "Memory size overflow"
  | .invalidUnit u => "Invalid memory unit: '" ++ u ++ "'. Valid units: B, KB, MB, GB, TB, PB"

/-- The strings the capture group \x5bKMGTP\x5d?B of MEMORY_REGEX can produce. -/
def isMemUnit (u : String) : Bool :=
  u == "B" || u == "KB" || u == "MB" || u == "GB" || u == "TB" || u == "PB"

/-- Code point ranges (inclusive) of the Unicode general category Nd
(decimal number) in Unicode 15.0, the category the regex crate's
Unicode-default class \d denotes. -/
def ndRanges : List (Nat × Nat) :=
  [(0x30, 0x39), (0x660, 0x669), (0x6F0, 0x6F9), (0x7C0, 0x7C9), (0x966, 0x96F),
   (0x9E6, 0x9EF), (0xA66, 0xA6F), (0xAE6, 0xAEF), (0xB66, 0xB6F), (0xBE6, 0xBEF),
   (0xC66, 0xC6F), (0xCE6, 0xCEF), (0xD66, 0xD6F), (0xDE6, 0xDEF), (0xE50, 0xE59),
   (0xED0, 0xED9), (0xF20, 0xF29), (0x1040, 0x1049), (0x1090, 0x1099),
   (0x17E0, 0x17E9), (0x1810, 0x1819), (0x1946, 0x194F), (0x19D0, 0x19D9),
   (0x1A80, 0x1A89), (0x1A90, 0x1A99), (0x1B50, 0x1B59), (0x1BB0, 0x1BB9),
   (0x1C40, 0x1C49), (0x1C50, 0x1C59), (0xA620, 0xA629), (0xA8D0, 0xA8D9),
   (0xA900, 0xA909), (0xA9D0, 0xA9D9), (0xA9F0, 0xA9F9), (0xAA50, 0xAA59),
   (0xABF0, 0xABF9), (0xFF10, 0xFF19), (0x104A0, 0x104A9), (0x10D30, 0x10D39),
   (0x11066, 0x1106F), (0x110F0, 0x110F9), (0x11136, 0x1113F), (0x111D0, 0x111D9),
   (0x112F0, 0x112F9), (0x11450, 0x11459), (0x114D0, 0x114D9), (0x11650, 0x11659),
   (0x116C0, 0x116C9), (0x11730, 0x11739), (0x118E0, 0x118E9), (0x11950, 0x11959),
   (0x11C50, 0x11C59), (0x11D50, 0x11D59), (0x11DA0, 0x11DA9), (0x11F50, 0x11F59),
   (0x16A60, 0x16A69), (0x16AC0, 0x16AC9), (0x16B50, 0x16B59), (0x1D7CE, 0x1D7FF),
   (0x1E140, 0x1E149), (0x1E2F0, 0x1E2F9), (0x1E4F0, 0x1E4F9), (0x1E950, 0x1E959),
   (0x1FBF0, 0x1FBF9)]

/-- The regex class \d in the crate's Unicode-default mode: membership in
the general category Nd. -/
def isNdDigit (c : Char) : Bool :=
  ndRanges.any (fun r => r.1 ≤ c.toNat && c.toNat ≤ r.2)

/-- MEMORY_REGEX applied to the input: "^(\d+)(\x5bKMGTP\x5d?B)$".  Because the
characters of the unit class are not in Nd, the regex matches exactly when a
non-empty maximal run of Nd digits is followed by one of the six unit
strings, and the two capture groups are that digit run and that unit. -/
def matchMemoryRegex (s : String) : Option (List Char × String) :=
  let digits := s.data.takeWhile isNdDigit
  let rest := String.mk (s.data.dropWhile isNdDigit)
  if digits.isEmpty then none
  else if isMemUnit rest then some (digits, rest) else none

/-- Numeric value of an ASCII decimal digit run, as str::parse accumulates
it. -/
def natOfDigits (cs : List Char) : Nat :=
  cs.foldl (fun acc c => 10 * acc + (c.toNat - 48)) 0

/-- The character loop of usize::from_str_radix: per character, first
char::to_digit(10) (None on anything but ASCII 0-9, giving the
invalid-digit error), then the checked multiply and add (PosOverflow when
the accumulator would leave the 64-bit range). -/
def parseUsizeGo (acc : Nat) : List Char → Except ParseError Nat
  | [] => .ok acc
  | c :: cs =>
    if c.isDigit then
      if 10 * acc + (c.toNat - 48) ≤ USIZE_MAX then
        parseUsizeGo (10 * acc + (c.toNat - 48)) cs
      else .error (.numberParse "number too large to fit in target type")
    else .error (.numberParse "invalid digit found in string")

/-- Rust's digit_run.parse::<usize>() on the captured (non-empty) run. -/
def parseUsize (cs : List Char) : Except ParseError Nat :=
  parseUsizeGo 0 cs

/-- usize::checked_mul: some product when it fits in 64 bits, else none. -/
def checkedMul (a b : Nat) : Option Nat :=
  if a * b ≤ USIZE_MAX then some (a * b) else none

/-- The match on the captured unit in parse_memory_string, including its
defensive fallback arm for an unrecognized unit. -/
def unitBytes (value : Nat) (unit : String) : Except ParseError Nat :=
  if unit = "B" then .ok value
  else if unit = "KB" then
    match checkedMul value 1024 with
    | some b => .ok b
    | none => .error .sizeOverflow
  else if unit = "MB" then
    match checkedMul value (1024 * 1024) with
    | some b => .ok b
    | none => .error .sizeOverflow
  else if unit = "GB" then
    match checkedMul value (1024 * 1024 * 1024) with
    | some b => .ok b
    | none => .error .sizeOverflow
  else if unit = "TB" then
    match checkedMul value (1024 * 1024 * 1024 * 1024) with
    | some b => .ok b
    | none => .error .sizeOverflow
  else if unit = "PB" then
    match checkedMul value (1024 * 1024 * 1024 * 1024 * 1024) with
    | some b => .ok b
    | none => .error .sizeOverflow
  else .error (.invalidUnit unit)

/-- Text of the eprintln! warning for very large allocations. -/
def memWarningMsg (bytes : Nat) (s : String) : String :=
  "Warning: Attempting to allocate " ++ toString bytes ++ " bytes (" ++ s ++
    "). This may cause system instability."

/-- parse_memory_string together with the lines it writes to stderr: the
result value of the Rust function paired with the list of emitted warning
lines.  The capture-group-1 lookup of the source cannot fail once the regex
has matched, so no branch is modelled for it. -/
def parseMemoryStringCore (s : String) : Except ParseError Nat × List String :=
  match matchMemoryRegex s with
  | none => (.error (.invalidFormat s), [])
  | some (digits, unit) =>
    match parseUsize digits with
    | .error e => (.error e, [])
    | .ok value =>
      match unitBytes value unit with
      | .error e => (.error e, [])
      | .ok bytes =>
        (.ok bytes,
          if bytes > 100 * 1024 * 1024 * 1024 then [memWarningMsg bytes s] else [])

/-- Result of parse_memory_string before the error type is rendered to String. -/
def parseMemoryStringErr (s : String) : Except ParseError Nat :=
  (parseMemoryStringCore s).1

/-- parse_memory_string as the caller sees it: Result<usize, String>. -/
def parse_memory_string (s : String) : Except String Nat :=
  (parseMemoryStringErr s).mapError ParseError.render

/-- The initialization loop of allocate_memory: data.push((i % 256) as u8)
for i in 0..bytes. -/
def initBuffer (bytes : Nat) : List Nat :=
  (List.range bytes).map (fun i => i % 256)

/-- allocate_memory, with the buffer state it hands to the background task
made explicit next to the byte count it returns. -/
def allocate_memory_state (memory : String) : Except String (Nat × List Nat) :=
  (parse_memory_string memory).map (fun bytes => (bytes, initBuffer bytes))

/-- allocate_memory's visible result: Ok(bytes) or the parse error. -/
def allocate_memory (memory : String) : Except String Nat :=
  (allocate_memory_state memory).map Prod.fst

/-- u8 wrapping_add(1) on a byte value. -/
def wrappingAdd1 (v : Nat) : Nat := (v + 1) % 256

/-- u8 wrapping_sub(1) on a byte value. -/
def wrappingSub1 (v : Nat) : Nat := (v + 255) % 256

/-- One in-place update data\x5bi\x5d = f(data\x5bi\x5d); the source only indexes in
bounds, where getD's default is never consulted. -/
def modifyIdx (f : Nat → Nat) (data : List Nat) (i : Nat) : List Nat :=
  data.set i (f (data.getD i 0))

/-- Chunk start offsets produced by (0..bytes).step_by(CHUNK_SIZE). -/
def chunkStarts (bytes : Nat) : List Nat :=
  (List.range ((bytes + CHUNK_SIZE - 1) / CHUNK_SIZE)).map (fun j => j * CHUNK_SIZE)

/-- One pass of keep_modifying_data: for each chunk start, apply f to every
index from chunk_start to chunk_end = min(chunk_start + CHUNK_SIZE, bytes). -/
def chunkPass (f : Nat → Nat) (bytes : Nat) (data : List Nat) : List Nat :=
  (chunkStarts bytes).foldl
    (fun d cs => (List.range' cs (min (cs + CHUNK_SIZE) bytes - cs)).foldl (modifyIdx f) d)
    data

/-- Modelled from the spec: the plain byte-by-byte pass (apply the per-byte
operation to every index of 0..bytes in order) that the windowed traversal
is required to be equivalent to. -/
def simplePass (f : Nat → Nat) (bytes : Nat) (data : List Nat) : List Nat :=
  (List.range bytes).foldl (modifyIdx f) data

/-- One full cycle of the background loop body: the increment pass followed
by the decrement pass (the sleeps in between do not touch the buffer). -/
def modificationCycle (bytes : Nat) (data : List Nat) : List Nat :=
  chunkPass wrappingSub1 bytes (chunkPass wrappingAdd1 bytes data)

/-- Modelled from the spec: the unit table B→1, KB→1024, MB→1024²,
GB→1024³, TB→1024⁴, PB→1024⁵ (and none off the table). -/
def multiplier (u : String) : Option Nat :=
  if u = "B" then some 1
  else if u = "KB" then some 1024
  else if u = "MB" then some (1024 * 1024)
  else if u = "GB" then some (1024 * 1024 * 1024)
  else if u = "TB" then some (1024 * 1024 * 1024 * 1024)
  else if u = "PB" then some (1024 * 1024 * 1024 * 1024 * 1024)
  else none

/-- Modelled from the spec: the pattern of the claim,
one or more digits (the class \d, Unicode Nd) then exactly one of B, KB,
MB, GB, TB, PB, checked at every split point of the text. -/
def specFormatMatch (s : String) : Bool :=
  (List.range (s.data.length + 1)).any (fun i =>
    decide (0 < i) && (s.data.take i).all isNdDigit &&
      (String.mk (s.data.drop i) == "B" || String.mk (s.data.drop i) == "KB" ||
        String.mk (s.data.drop i) == "MB" || String.mk (s.data.drop i) == "GB" ||
        String.mk (s.data.drop i) == "TB" || String.mk (s.data.drop i) == "PB"))

/-- Tests whether a parse result is the defensive invalid-unit error of the
fallback arm of the unit match. -/
def isInvalidUnitErr : Except ParseError Nat → Bool
  | .error (ParseError.invalidUnit _) => true
  | _ => false

end WeightRs

deriving instance DecidableEq for Except

namespace WeightRs

/-! Helper lemmas about the windowed traversal. -/

/-- Updating the first index past d1 in d1 ++ v :: t replaces v by f v. -/
theorem modifyIdx_append (f : Nat → Nat) (d1 : List Nat) (v : Nat) (t : List Nat) :
    modifyIdx f (d1 ++ v :: t) d1.length = d1 ++ f v :: t := by
  induction d1 with
  | nil => rfl
  | cons a d1 ih =>
    simp only [modifyIdx, List.cons_append, List.length_cons, List.set, List.getD,
      List.getElem?_cons_succ] at ih ⊢
    exact congrArg (a :: ·) ih

/-- Folding the per-index update over the index range that covers exactly d2
inside d1 ++ d2 maps f over d2 and leaves d1 alone. -/
theorem foldl_modifyIdx_range' (f : Nat → Nat) :
    ∀ (d2 d1 : List Nat),
      (List.range' d1.length d2.length).foldl (modifyIdx f) (d1 ++ d2) = d1 ++ d2.map f
  | [], d1 => by simp
  | v :: t, d1 => by
    rw [List.length_cons, List.range'_succ, List.foldl_cons, modifyIdx_append]
    have h := foldl_modifyIdx_range' f t (d1 ++ [f v])
    simp only [List.length_append, List.length_cons, List.length_nil, List.append_assoc,
      List.cons_append, List.nil_append] at h ⊢
    exact h

/-- A byte-by-byte pass over the whole buffer is exactly List.map. -/
theorem simplePass_eq_map (f : Nat → Nat) (d : List Nat) :
    simplePass f d.length d = d.map f := by
  have h := foldl_modifyIdx_range' f d []
  simpa [simplePass, List.range_eq_range'] using h

/-- Extending the covered range by one window: indices up to min n a followed
by the window from a to min (a + c) n give the indices up to min n (a + c). -/
theorem range_min_append_window (n a c : Nat) :
    List.range (min n a) ++ List.range' a (min (a + c) n - a) = List.range (min n (a + c)) := by
  rcases Nat.le_total n a with h | h
  · have h1 : min n a = n := Nat.min_eq_left h
    have h2 : min (a + c) n = n := Nat.min_eq_right (Nat.le_trans h (Nat.le_add_right a c))
    have h3 : n - a = 0 := Nat.sub_eq_zero_of_le h
    have h4 : min n (a + c) = n := Nat.min_eq_left (Nat.le_trans h (Nat.le_add_right a c))
    simp [h1, h2, h3, h4]
  · have h1 : min n a = a := Nat.min_eq_right h
    have h5 : a ≤ min (a + c) n := le_min (Nat.le_add_right a c) h
    have h2 : a + (min (a + c) n - a) = min (a + c) n := Nat.add_sub_cancel' h5
    have h3 : min n (a + c) = min (a + c) n := Nat.min_comm n (a + c)
    rw [h1, h3, List.range_eq_range', List.range_eq_range']
    have h4 := List.range'_append 0 a (min (a + c) n - a) 1
    simp only [Nat.zero_add, Nat.one_mul] at h4
    rw [h4, Nat.add_comm (min (a + c) n - a) a, h2]

/-- Folding the first q windows of the chunked pass covers exactly the indices
below min n (q * CHUNK_SIZE). -/
theorem chunkFoldl_eq_range_foldl (f : Nat → Nat) (n : Nat) :
    ∀ (q : Nat) (d : List Nat),
      ((List.range q).map (fun j => j * CHUNK_SIZE)).foldl
          (fun d cs => (List.range' cs (min (cs + CHUNK_SIZE) n - cs)).foldl (modifyIdx f) d)
          d
        = (List.range (min n (q * CHUNK_SIZE))).foldl (modifyIdx f) d
  | 0, d => by simp
  | q + 1, d => by
    rw [List.range_succ, List.map_append, List.foldl_append,
      chunkFoldl_eq_range_foldl f n q d]
    have hsucc : (q + 1) * CHUNK_SIZE = q * CHUNK_SIZE + CHUNK_SIZE := Nat.succ_mul q _
    rw [hsucc, ← range_min_append_window n (q * CHUNK_SIZE) CHUNK_SIZE, List.foldl_append]
    simp

/-- The windowed pass touches every index below bytes exactly as the plain
byte-by-byte pass does, for any buffer and any per-byte operation. -/
theorem chunkPass_eq_simplePass (f : Nat → Nat) (n : Nat) (d : List Nat) :
    chunkPass f n d = simplePass f n d := by
  have hq : n ≤ ((n + CHUNK_SIZE - 1) / CHUNK_SIZE) * CHUNK_SIZE := by
    simp only [CHUNK_SIZE]; omega
  have h := chunkFoldl_eq_range_foldl f n ((n + CHUNK_SIZE - 1) / CHUNK_SIZE) d
  rw [chunkPass, chunkStarts, h, Nat.min_eq_left hq, simplePass]

/-- A chunked pass over a whole buffer (bytes = length) is List.map. -/
theorem chunkPass_eq_map (f : Nat → Nat) (d : List Nat) :
    chunkPass f d.length d = d.map f := by
  rw [chunkPass_eq_simplePass, simplePass_eq_map]

/-! Helper lemmas about the regex match. -/

/-- An ASCII decimal digit lies in the first range of the Nd table. -/
theorem isDigit_isNd (c : Char) (h : c.isDigit = true) : isNdDigit c = true := by
  have h' : 48 ≤ c.toNat ∧ c.toNat ≤ 57 := by
    simp [Char.isDigit, Char.le_def, UInt32.le_def] at h
    exact h
  refine List.any_eq_true.mpr ⟨(0x30, 0x39), by simp [ndRanges], ?_⟩
  simp only [Bool.and_eq_true, decide_eq_true_eq]
  exact h'

/-- On a digit run followed by text that does not begin with a digit,
takeWhile yields the digit run and dropWhile the following text. -/
theorem takeWhile_digits_append (ds rest : List Char)
    (hd : ∀ c ∈ ds, isNdDigit c = true)
    (hr : rest.head?.all (fun c => !isNdDigit c) = true) :
    (ds ++ rest).takeWhile isNdDigit = ds ∧
      (ds ++ rest).dropWhile isNdDigit = rest := by
  induction ds with
  | nil =>
    cases rest with
    | nil => simp
    | cons c cs =>
      simp only [List.head?, Option.all_some, Bool.not_eq_eq_eq_not, Bool.not_true] at hr
      simp [List.takeWhile_cons, List.dropWhile_cons, hr]
  | cons a ds ih =>
    have ha : isNdDigit a = true := hd a (List.mem_cons_self a ds)
    have ih' := ih (fun c hc => hd c (List.mem_cons_of_mem a hc))
    simp [List.takeWhile_cons, List.dropWhile_cons, ha, ih'.1, ih'.2]

/-- On a valid input, the regex captures exactly the digit run and the unit. -/
theorem matchMemoryRegex_valid (ds : List Char) (u : String)
    (hne : ds ≠ []) (hd : ∀ c ∈ ds, isNdDigit c = true)
    (hu : isMemUnit u = true)
    (hh : u.data.head?.all (fun c => !isNdDigit c) = true) :
    matchMemoryRegex (String.mk (ds ++ u.data)) = some (ds, u) := by
  have h := takeWhile_digits_append ds u.data hd hh
  have hmk : String.mk u.data = u := rfl
  have hemp : ds.isEmpty = false := by
    cases ds with
    | nil => exact absurd rfl hne
    | cons a t => rfl
  simp only [matchMemoryRegex, String.data]
  rw [h.1, h.2, hmk, hemp, hu]
  rfl

/-- The accumulator never decreases while digits are folded in. -/
theorem foldl_digits_ge (cs : List Char) :
    ∀ acc : Nat, acc ≤ cs.foldl (fun a c => 10 * a + (c.toNat - 48)) acc := by
  induction cs with
  | nil => intro acc; exact Nat.le.refl
  | cons c t ih =>
    intro acc
    refine Nat.le_trans ?_ (ih (10 * acc + (c.toNat - 48)))
    omega

/-- On an all-ASCII digit run the character loop yields the decimal value,
or the PosOverflow error when that value leaves the 64-bit range. -/
theorem parseUsizeGo_ascii (cs : List Char) :
    ∀ acc : Nat, (∀ c ∈ cs, c.isDigit = true) → acc ≤ USIZE_MAX →
      parseUsizeGo acc cs =
        if cs.foldl (fun a c => 10 * a + (c.toNat - 48)) acc ≤ USIZE_MAX
        then .ok (cs.foldl (fun a c => 10 * a + (c.toNat - 48)) acc)
        else .error (.numberParse "number too large to fit in target type") := by
  induction cs with
  | nil => intro acc _ hacc; simp [parseUsizeGo, hacc]
  | cons c t ih =>
    intro acc hd hacc
    have hc : c.isDigit = true := hd c (List.mem_cons_self c t)
    by_cases hstep : 10 * acc + (c.toNat - 48) ≤ USIZE_MAX
    · rw [parseUsizeGo, if_pos hc, if_pos hstep,
        ih _ (fun x hx => hd x (List.mem_cons_of_mem c hx)) hstep]
      rfl
    · have hbig : ¬ t.foldl (fun a c => 10 * a + (c.toNat - 48))
          (10 * acc + (c.toNat - 48)) ≤ USIZE_MAX := by
        have := foldl_digits_ge t (10 * acc + (c.toNat - 48))
        omega
      rw [parseUsizeGo, if_pos hc, if_neg hstep, List.foldl_cons, if_neg hbig]

/-- str::parse on an all-ASCII digit run: the value when it fits in usize,
the number-too-large error otherwise. -/
theorem parseUsize_ascii (cs : List Char) (hd : ∀ c ∈ cs, c.isDigit = true) :
    parseUsize cs =
      if natOfDigits cs ≤ USIZE_MAX then .ok (natOfDigits cs)
      else .error (.numberParse "number too large to fit in target type") :=
  parseUsizeGo_ascii cs 0 hd (by simp [USIZE_MAX])

/-- Every failure of the character loop is a numberParse error. -/
theorem parseUsizeGo_error_shape (cs : List Char) :
    ∀ (acc : Nat) (e : ParseError), parseUsizeGo acc cs = .error e →
      ∃ d, e = ParseError.numberParse d := by
  induction cs with
  | nil => intro acc e h; cases h
  | cons c t ih =>
    intro acc e h
    rw [parseUsizeGo] at h
    by_cases hc : c.isDigit = true
    · rw [if_pos hc] at h
      by_cases hstep : 10 * acc + (c.toNat - 48) ≤ USIZE_MAX
      · rw [if_pos hstep] at h
        exact ih _ e h
      · rw [if_neg hstep] at h
        injection h with h
        exact ⟨"number too large to fit in target type", h.symm⟩
    · rw [if_neg hc] at h
      injection h with h
      exact ⟨"invalid digit found in string", h.symm⟩

/-- Every failure of str::parse on a captured run is a numberParse error. -/
theorem parseUsize_error_shape (cs : List Char) (e : ParseError)
    (h : parseUsize cs = .error e) : ∃ d, e = ParseError.numberParse d :=
  parseUsizeGo_error_shape cs 0 e h

/-- A non-ASCII Nd digit (here Arabic-Indic three, U+0663) passes the
Unicode regex and then fails integer parsing, exactly as in the source:
the result is the invalid-digit error, not the invalid-format error. -/
theorem parse_nonascii_nd_digit :
    parse_memory_string "٣B" =
      .error "Failed to parse number: invalid digit found in string" := by decide

/-- On a digit run and a unit of the table whose product fits in usize,
the parser computes exactly digit value times multiplier. -/
theorem parse_valid_core (ds : List Char) (u : String) (m : Nat)
    (hm : multiplier u = some m)
    (hne : ds ≠ []) (hd : ∀ c ∈ ds, c.isDigit = true)
    (hfit : natOfDigits ds * m ≤ USIZE_MAX) :
    parseMemoryStringErr (String.mk (ds ++ u.data)) = .ok (natOfDigits ds * m) := by
  have hv : natOfDigits ds ≤ USIZE_MAX := by
    refine Nat.le_trans (Nat.le_mul_of_pos_right _ ?_) hfit
    simp only [multiplier] at hm
    split_ifs at hm <;> simp_all <;> omega
  have hnd : ∀ c ∈ ds, isNdDigit c = true := fun c hc => isDigit_isNd c (hd c hc)
  have hp : parseUsize ds = .ok (natOfDigits ds) := by
    rw [parseUsize_ascii ds hd, if_pos hv]
  simp only [multiplier] at hm
  split_ifs at hm with h1 h2 h3 h4 h5 h6
  · subst h1; cases hm
    have hre := matchMemoryRegex_valid ds "B" hne hnd (by decide) (by decide)
    simp [parseMemoryStringErr, parseMemoryStringCore, hre, hp, unitBytes]
  · subst h2; cases hm
    have hre := matchMemoryRegex_valid ds "KB" hne hnd (by decide) (by decide)
    simp [parseMemoryStringErr, parseMemoryStringCore, hre, hp, unitBytes,
      checkedMul, hfit]
  · subst h3; cases hm
    have hre := matchMemoryRegex_valid ds "MB" hne hnd (by decide) (by decide)
    simp [parseMemoryStringErr, parseMemoryStringCore, hre, hp, unitBytes,
      checkedMul, hfit]
  · subst h4; cases hm
    have hre := matchMemoryRegex_valid ds "GB" hne hnd (by decide) (by decide)
    simp [parseMemoryStringErr, parseMemoryStringCore, hre, hp, unitBytes,
      checkedMul, hfit]
  · subst h5; cases hm
    have hre := matchMemoryRegex_valid ds "TB" hne hnd (by decide) (by decide)
    simp [parseMemoryStringErr, parseMemoryStringCore, hre, hp, unitBytes,
      checkedMul, hfit]
  · subst h6; cases hm
    have hre := matchMemoryRegex_valid ds "PB" hne hnd (by decide) (by decide)
    simp [parseMemoryStringErr, parseMemoryStringCore, hre, hp, unitBytes,
      checkedMul, hfit]

/-- On a digit run and a unit whose product does not fit in usize (while the
digit run itself does), checked multiplication reports the overflow. -/
theorem parse_overflow_core (ds : List Char) (u : String) (m : Nat)
    (hm : multiplier u = some m)
    (hne : ds ≠ []) (hd : ∀ c ∈ ds, c.isDigit = true)
    (hv : natOfDigits ds ≤ USIZE_MAX)
    (hover : USIZE_MAX < natOfDigits ds * m) :
    parseMemoryStringErr (String.mk (ds ++ u.data)) = .error .sizeOverflow := by
  have hnd : ∀ c ∈ ds, isNdDigit c = true := fun c hc => isDigit_isNd c (hd c hc)
  have hp : parseUsize ds = .ok (natOfDigits ds) := by
    rw [parseUsize_ascii ds hd, if_pos hv]
  simp only [multiplier] at hm
  split_ifs at hm with h1 h2 h3 h4 h5 h6
  · subst h1; cases hm
    omega
  · subst h2; cases hm
    have hre := matchMemoryRegex_valid ds "KB" hne hnd (by decide) (by decide)
    have hnot : ¬ natOfDigits ds * 1024 ≤ USIZE_MAX := by omega
    simp [parseMemoryStringErr, parseMemoryStringCore, hre, hp, unitBytes,
      checkedMul, hnot]
  · subst h3; cases hm
    have hre := matchMemoryRegex_valid ds "MB" hne hnd (by decide) (by decide)
    have hnot : ¬ natOfDigits ds * (1024 * 1024) ≤ USIZE_MAX := by omega
    simp [parseMemoryStringErr, parseMemoryStringCore, hre, hp, unitBytes,
      checkedMul, hnot]
  · subst h4; cases hm
    have hre := matchMemoryRegex_valid ds "GB" hne hnd (by decide) (by decide)
    have hnot : ¬ natOfDigits ds * (1024 * 1024 * 1024) ≤ USIZE_MAX := by omega
    simp [parseMemoryStringErr, parseMemoryStringCore, hre, hp, unitBytes,
      checkedMul, hnot]
  · subst h5; cases hm
    have hre := matchMemoryRegex_valid ds "TB" hne hnd (by decide) (by decide)
    have hnot : ¬ natOfDigits ds * (1024 * 1024 * 1024 * 1024) ≤ USIZE_MAX := by omega
    simp [parseMemoryStringErr, parseMemoryStringCore, hre, hp, unitBytes,
      checkedMul, hnot]
  · subst h6; cases hm
    have hre := matchMemoryRegex_valid ds "PB" hne hnd (by decide) (by decide)
    have hnot : ¬ natOfDigits ds * (1024 * 1024 * 1024 * 1024 * 1024) ≤ USIZE_MAX := by omega
    simp [parseMemoryStringErr, parseMemoryStringCore, hre, hp, unitBytes,
      checkedMul, hnot]

/-- Whatever the regex captures is the maximal digit run and a unit. -/
theorem matchMemoryRegex_some (s : String) (ds : List Char) (u : String)
    (h : matchMemoryRegex s = some (ds, u)) :
    ds = s.data.takeWhile isNdDigit ∧ u = String.mk (s.data.dropWhile isNdDigit) ∧
      ds.isEmpty = false ∧ isMemUnit u = true := by
  simp only [matchMemoryRegex] at h
  by_cases h1 : (s.data.takeWhile isNdDigit).isEmpty = true
  · rw [if_pos h1] at h; cases h
  · rw [if_neg h1] at h
    by_cases h2 : isMemUnit (String.mk (s.data.dropWhile isNdDigit)) = true
    · rw [if_pos h2] at h
      injection h with h
      injection h with ha hb
      subst ha; subst hb
      refine ⟨rfl, rfl, ?_, h2⟩
      simpa using h1
    · rw [if_neg h2] at h; cases h

/-- If the regex matches, the claim's pattern matches at the split point
given by the captured digit run. -/
theorem specFormatMatch_of_regex (s : String) (ds : List Char) (u : String)
    (h : matchMemoryRegex s = some (ds, u)) : specFormatMatch s = true := by
  obtain ⟨hds, hu, hne, hmem⟩ := matchMemoryRegex_some s ds u h
  have hsplit := List.takeWhile_append_dropWhile isNdDigit s.data
  have hlen : ds.length ≤ s.data.length := by
    conv_rhs => rw [← hsplit]
    rw [← hds, List.length_append]
    exact Nat.le_add_right _ _
  have htake : s.data.take ds.length = ds := by
    conv_lhs => rw [← hsplit, ← hds]
    exact List.take_left ds _
  have hdrop : s.data.drop ds.length = s.data.dropWhile isNdDigit := by
    conv_lhs => rw [← hsplit, ← hds]
    exact List.drop_left ds _
  rw [specFormatMatch, List.any_eq_true]
  refine ⟨ds.length, List.mem_range.mpr (by omega), ?_⟩
  have hpos : 0 < ds.length := by
    cases hc : ds with
    | nil => rw [hc] at hne; cases hne
    | cons a t => simp
  have hall : (s.data.take ds.length).all isNdDigit = true := by
    rw [htake, List.all_eq_true, hds]
    intro c hc
    exact List.mem_takeWhile_imp hc
  have humem : isMemUnit (String.mk (s.data.drop ds.length)) = true := by
    rw [hdrop, ← hu]; exact hmem
  simp only [isMemUnit] at humem
  simp only [Bool.and_eq_true, decide_eq_true_eq, Bool.or_eq_true] at humem ⊢
  exact ⟨⟨hpos, hall⟩, humem⟩

/-- The fallback arm of the unit match is not taken on recognized units. -/
theorem unitBytes_not_invalidUnit (v : Nat) (u : String) (hu : isMemUnit u = true) :
    isInvalidUnitErr (unitBytes v u) = false := by
  simp only [isMemUnit, Bool.or_eq_true, beq_iff_eq] at hu
  rcases hu with ((((h | h) | h) | h) | h) | h <;> subst h
  · rfl
  · cases hmul : checkedMul v 1024 <;> simp [unitBytes, hmul, isInvalidUnitErr]
  · cases hmul : checkedMul v (1024 * 1024) <;> simp [unitBytes, hmul, isInvalidUnitErr]
  · cases hmul : checkedMul v (1024 * 1024 * 1024) <;>
      simp [unitBytes, hmul, isInvalidUnitErr]
  · cases hmul : checkedMul v (1024 * 1024 * 1024 * 1024) <;>
      simp [unitBytes, hmul, isInvalidUnitErr]
  · cases hmul : checkedMul v (1024 * 1024 * 1024 * 1024 * 1024) <;>
      simp [unitBytes, hmul, isInvalidUnitErr]

/-- Index i of the freshly initialized buffer holds i mod 256. -/
theorem initBuffer_getD (n i : Nat) (h : i < n) : (initBuffer n).getD i 0 = i % 256 := by
  simp [initBuffer, List.getD_eq_getElem?_getD, List.getElem?_map, List.getElem?_range h]

/-! The claims. -/

/-- C1: for every input string matching the grammar digits-then-unit with a
unit of the table, when the product fits in usize, parse_memory_string
returns Ok of exactly the digit value times the unit multiplier; in
particular parse("1KB") = 1024, parse("2MB") = 2097152, parse("0B") = 0. -/
theorem C1_parse_valid_exact :
    (∀ (ds : List Char) (u : String) (m : Nat),
        multiplier u = some m → ds ≠ [] → (∀ c ∈ ds, c.isDigit = true) →
        natOfDigits ds * m ≤ USIZE_MAX →
        parse_memory_string (String.mk (ds ++ u.data)) = .ok (natOfDigits ds * m)) ∧
      parse_memory_string "1KB" = .ok 1024 ∧
      parse_memory_string "2MB" = .ok 2097152 ∧
      parse_memory_string "0B" = .ok 0 := by
  refine ⟨?_, by decide, by decide, by decide⟩
  intro ds u m hm hne hd hfit
  have h := parse_valid_core ds u m hm hne hd hfit
  simp [parse_memory_string, h, Except.mapError]

/-- Witness for C1 at the concrete input "7GB". -/
theorem C1_parse_valid_exact_witness :
    parse_memory_string (String.mk ("7".data ++ "GB".data)) =
      .ok (natOfDigits "7".data * (1024 * 1024 * 1024)) :=
  C1_parse_valid_exact.1 "7".data "GB" (1024 * 1024 * 1024) (by decide) (by decide)
    (by decide) (by decide)

/-- C2: every input string on which the pattern digits-then-unit fails
is rejected with the InvalidFormat error carrying the offending text. -/
theorem C2_invalid_format (s : String) (h : specFormatMatch s = false) :
    parse_memory_string s =
      .error ("Invalid memory string format: '" ++ s ++
        "'. Expected format: <number><unit> (e.g., 1B, 100KB, 2GB)") := by
  have hnone : matchMemoryRegex s = none := by
    cases hm : matchMemoryRegex s with
    | none => rfl
    | some p =>
      obtain ⟨ds, u⟩ := p
      have htrue := specFormatMatch_of_regex s ds u hm
      rw [h] at htrue; cases htrue
  simp [parse_memory_string, parseMemoryStringErr, parseMemoryStringCore, hnone,
    ParseError.render, Except.mapError]

/-- Witness for C2 at the concrete inputs "100" and "5XB". -/
theorem C2_invalid_format_witness :
    (specFormatMatch "100" = false ∧
        parse_memory_string "100" =
          .error ("Invalid memory string format: '" ++ "100" ++
            "'. Expected format: <number><unit> (e.g., 1B, 100KB, 2GB)")) ∧
      parse_memory_string "5XB" =
        .error ("Invalid memory string format: '" ++ "5XB" ++
          "'. Expected format: <number><unit> (e.g., 1B, 100KB, 2GB)") :=
  ⟨⟨by decide, C2_invalid_format "100" (by decide)⟩, C2_invalid_format "5XB" (by decide)⟩

/-- C3 counterexample: the grammar-valid input "18446744073709551616B" has
magnitude times multiplier 2^64 × 1 above usize::MAX, yet parse_memory_string
fails with the number-parse error, not the size-overflow error. -/
theorem C3_counterexample :
    parse_memory_string "18446744073709551616B" =
        .error "Failed to parse number: number too large to fit in target type" ∧
      USIZE_MAX < natOfDigits "18446744073709551616".data * 1 ∧
      (parse_memory_string "18446744073709551616B" ==
        .error "Memory size overflow") = false := by
  exact ⟨by decide, by decide, by decide⟩

/-- C3 amended: for every grammar-valid input whose digit run fits in usize
but whose magnitude times multiplier exceeds usize::MAX, parse_memory_string
fails with the SizeOverflow error from checked multiplication; the product
is never wrapped into a returned value. -/
theorem C3_size_overflow (ds : List Char) (u : String) (m : Nat)
    (hm : multiplier u = some m) (hne : ds ≠ []) (hd : ∀ c ∈ ds, c.isDigit = true)
    (hv : natOfDigits ds ≤ USIZE_MAX) (hover : USIZE_MAX < natOfDigits ds * m) :
    parse_memory_string (String.mk (ds ++ u.data)) = .error "Memory size overflow" := by
  have h := parse_overflow_core ds u m hm hne hd hv hover
  simp [parse_memory_string, h, Except.mapError, ParseError.render]

/-- Witness for the amended C3 at the concrete input "16384PB". -/
theorem C3_size_overflow_witness :
    parse_memory_string (String.mk ("16384".data ++ "PB".data)) =
      .error "Memory size overflow" :=
  C3_size_overflow "16384".data "PB" (1024 * 1024 * 1024 * 1024 * 1024) (by decide)
    (by decide) (by decide) (by decide) (by decide)

/-- C4: a successful allocation yields a buffer of exactly the resolved
byte count whose initial contents are i mod 256 at every index, before any
background mutation. -/
theorem C4_buffer_initialized (s : String) (n : Nat) (buf : List Nat)
    (h : allocate_memory_state s = .ok (n, buf)) :
    buf.length = n ∧ ∀ i, i < n → buf.getD i 0 = i % 256 := by
  unfold allocate_memory_state at h
  cases hp : parse_memory_string s with
  | error e => rw [hp] at h; cases h
  | ok b =>
    rw [hp] at h
    simp only [Except.map, Except.ok.injEq, Prod.mk.injEq] at h
    obtain ⟨hb, hbuf⟩ := h
    subst hb; subst hbuf
    refine ⟨by simp [initBuffer], fun i hi => initBuffer_getD _ i hi⟩

/-- Witness for C4 at the concrete input "3B". -/
theorem C4_buffer_initialized_witness :
    [0, 1, 2].length = 3 ∧ ∀ i, i < 3 → [0, 1, 2].getD i 0 = i % 256 :=
  C4_buffer_initialized "3B" 3 [0, 1, 2] (by decide)

/-- C5: one full increment pass followed by one full decrement pass (the
loop body of keep_modifying_data) restores every byte of the buffer, for
all byte values below 256. -/
theorem C5_cycle_restores (data : List Nat) (h : ∀ v ∈ data, v < 256) :
    modificationCycle data.length data = data := by
  have h1 : chunkPass wrappingAdd1 data.length data = data.map wrappingAdd1 :=
    chunkPass_eq_map wrappingAdd1 data
  have hlen : data.length = (data.map wrappingAdd1).length :=
    (List.length_map data wrappingAdd1).symm
  calc modificationCycle data.length data
      = chunkPass wrappingSub1 data.length (data.map wrappingAdd1) := by
        rw [modificationCycle, h1]
    _ = (data.map wrappingAdd1).map wrappingSub1 := by
        rw [hlen, chunkPass_eq_map]
    _ = data.map (wrappingSub1 ∘ wrappingAdd1) := List.map_map wrappingSub1 wrappingAdd1 data
    _ = data.map id := by
        refine List.map_congr_left fun v hv => ?_
        have hb := h v hv
        simp only [Function.comp, wrappingAdd1, wrappingSub1, id]
        omega
    _ = data := List.map_id data

/-- Witness for C5 at the concrete buffer [0, 17, 128, 255]. -/
theorem C5_cycle_restores_witness :
    modificationCycle 4 [0, 17, 128, 255] = [0, 17, 128, 255] :=
  C5_cycle_restores [0, 17, 128, 255] (by decide)

/-- C6: the windowed traversal of a pass produces byte values identical to
the plain byte-by-byte pass for every per-byte operation, byte count and
buffer; over a whole buffer the pass applies the operation at every index
exactly once, skipping and repeating none. -/
theorem C6_windowed_equals_bytewise :
    (∀ (f : Nat → Nat) (bytes : Nat) (data : List Nat),
        chunkPass f bytes data = simplePass f bytes data) ∧
      ∀ (f : Nat → Nat) (data : List Nat), simplePass f data.length data = data.map f :=
  ⟨chunkPass_eq_simplePass, simplePass_eq_map⟩

/-- C7: allocate_memory returns exactly the byte count parse_memory_string
produced, with no background cycle applied to the result; in particular
100MB resolves to 104857600 bytes and 1TB to 1099511627776 bytes. -/
theorem C7_allocate_returns_count :
    (∀ s : String, allocate_memory s = parse_memory_string s) ∧
      allocate_memory "100MB" = .ok 104857600 ∧
      allocate_memory "1TB" = .ok 1099511627776 := by
  refine ⟨?_, by decide, by decide⟩
  intro s
  unfold allocate_memory allocate_memory_state
  cases parse_memory_string s <;> rfl

/-- C8: when the resolved byte count exceeds 100 GiB, the parser emits
exactly the advisory warning line with the byte count and the original
text, and still returns Ok of the byte count. -/
theorem C8_large_allocation_warning (s : String) (n : Nat)
    (hok : (parseMemoryStringCore s).1 = .ok n)
    (hbig : 100 * 1024 * 1024 * 1024 < n) :
    (parseMemoryStringCore s).2 = [memWarningMsg n s] ∧ parse_memory_string s = .ok n := by
  refine ⟨?_, by simp [parse_memory_string, parseMemoryStringErr, hok, Except.mapError]⟩
  cases hm : matchMemoryRegex s with
  | none => simp [parseMemoryStringCore, hm] at hok
  | some p =>
    obtain ⟨ds, u⟩ := p
    cases hp : parseUsize ds with
    | error e => simp [parseMemoryStringCore, hm, hp] at hok
    | ok v =>
      cases hb : unitBytes v u with
      | error e => simp [parseMemoryStringCore, hm, hp, hb] at hok
      | ok bytes =>
        simp only [parseMemoryStringCore, hm, hp, hb, Except.ok.injEq] at hok
        subst hok
        simp [parseMemoryStringCore, hm, hp, hb, hbig]

/-- Witness for C8 at the concrete input "101GB". -/
theorem C8_large_allocation_warning_witness :
    (parseMemoryStringCore "101GB").2 = [memWarningMsg 108447924224 "101GB"] ∧
      parse_memory_string "101GB" = .ok 108447924224 :=
  C8_large_allocation_warning "101GB" 108447924224 (by decide) (by decide)

/-- C10: the defensive InvalidUnit arm of the unit match is unreachable:
no input string ever makes parse_memory_string produce the invalid-unit
error. -/
theorem C10_invalid_unit_unreachable (s : String) :
    isInvalidUnitErr (parseMemoryStringErr s) = false := by
  cases hm : matchMemoryRegex s with
  | none => simp [parseMemoryStringErr, parseMemoryStringCore, hm, isInvalidUnitErr]
  | some p =>
    obtain ⟨ds, u⟩ := p
    obtain ⟨-, -, -, hmem⟩ := matchMemoryRegex_some s ds u hm
    cases hp : parseUsize ds with
    | error e =>
      obtain ⟨d, rfl⟩ := parseUsize_error_shape ds e hp
      simp [parseMemoryStringErr, parseMemoryStringCore, hm, hp, isInvalidUnitErr]
    | ok v =>
      cases hb : unitBytes v u with
      | error e =>
        have hni := unitBytes_not_invalidUnit v u hmem
        rw [hb] at hni
        simpa [parseMemoryStringErr, parseMemoryStringCore, hm, hp, hb] using hni
      | ok bytes =>
        simp [parseMemoryStringErr, parseMemoryStringCore, hm, hp, hb, isInvalidUnitErr]

end WeightRs
